import Mathlib

/-!
Verification of the gaphor code generator (`gaphor/codegen/coder.py`).

The generator reads an object graph of UML elements (classes, properties,
operations, generalizations, stereotype applications) and emits Python
class declarations followed by association wiring statements.

The object graph is embedded shallowly: elements are identified by natural
numbers, references between elements are ids resolved through the `Model`,
and each Python function of `coder.py` is translated to a Lean definition
of the same name (up to Lean lexical restrictions).  Functions of the
source that recurse through the generalization graph (which Python does
without a termination guarantee) take an explicit fuel argument; the
pipeline instantiates the fuel with `modelFuel`, one more than the number
of classes, which is enough for every acyclic model.

The override table (`gaphor/codegen/override.py`) is not part of the
sources; it is modelled from the spec (§4.2) as a finite map from
qualified names to literal replacement text plus a type annotation.
-/

namespace Coder

/-- A stereotype-application slot: pairs the defining feature name
(e.g. "subsets", "redefines") with its literal string value.
Source: `a.appliedStereotype[:].slot` with `slot.definingFeature.name`
and `slot.value`. -/
structure Slot where
  definingFeature : String
  value : String
deriving DecidableEq

/-- The weak back-reference `Property.opposite`: the generator only reads
its `name` and whether `class_` is set (coder.py lines 171-176). -/
structure OppositeInfo where
  name : Option String
  class_ : Bool
deriving DecidableEq

/-- A UML Property (attribute).  `typeId` is the resolved class reference
(`prop.type`), `typeValue` the scalar placeholder string; `upper` is the
derived multiplicity accessor used at coder.py line 79 (its derivation
lives outside src/, so it is modelled as a stored field per spec §3),
while `lowerValue` / `upperValue` are the stored bounds used by the
clause builders (lines 159-164). -/
structure Property where
  name : String
  ownerId : Nat
  typeId : Option Nat
  typeValue : Option String
  isDerived : Bool
  association : Bool
  upper : String
  lowerValue : Option String
  upperValue : Option String
  aggregation : String
  defaultValue : Option String
  opposite : Option OppositeInfo
  slots : List Slot
deriving DecidableEq

/-- A UML Operation; the generator only reads its name. -/
structure Operation where
  name : String
deriving DecidableEq

/-- A UML Class.  `generalization` holds the ids of the classes reachable
as `g.general` over the outgoing generalization edges (coder.py
lines 193-196); `appliedStereotypes` the names of applied stereotypes
(read through `UML.model.get_applied_stereotypes`, outside src/). -/
structure Class where
  name : String
  ownedAttribute : List Property
  ownedOperation : List Operation
  generalization : List Nat
  appliedStereotypes : List String
  owningPackage : Option Nat
deriving DecidableEq

/-- A UML Package; `isProfile` models `isinstance(p, UML.Profile)`. -/
structure Package where
  name : String
  isProfile : Bool
  owningPackage : Option Nat
deriving DecidableEq

/-- The loaded element factory: classes and packages keyed by element id.
The list order of `classes` is the iteration order of
`element_factory.select(UML.Class)`. -/
structure Model where
  classes : List (Nat × Class)
  packages : List (Nat × Package)
deriving DecidableEq

/-- Modelled from the spec: `gaphor/codegen/override.py` is not under
src/.  Per §4.2 an override entry carries the literal replacement text
(returned by `get_override`) and, per §4.5 rule 1, a type annotation
(returned by `get_type`) used at the attribute/operation declaration
site. -/
structure OverrideEntry where
  text : String
  otype : String
deriving DecidableEq

/-- Modelled from the spec (§4.2): the override table is a lookup table
keyed by qualified name, loaded once and immutable. -/
abbrev Overrides := List (String × OverrideEntry)

/-- Resolve a class id in the model (first entry with that id). -/
def lookupClass (m : Model) (i : Nat) : Option Class :=
  (m.classes.find? (fun ic => ic.1 == i)).map (fun ic => ic.2)

/-- Resolve a package id in the model. -/
def lookupPackage (m : Model) (i : Nat) : Option Package :=
  (m.packages.find? (fun ip => ip.1 == i)).map (fun ip => ip.2)

/-- The ids of all classes in the model. -/
def classIds (m : Model) : List Nat := m.classes.map (fun ic => ic.1)

/-- Fuel used by the pipeline for every recursion through the
generalization graph: one more than the number of classes, enough for
any acyclic chain. -/
def modelFuel (m : Model) : Nat := m.classes.length + 1

/-- `bases(c)` of coder.py lines 193-196: the direct generals of a class.
Ids that do not resolve in the model are dropped (the Python object graph
cannot contain them). -/
def basesOfClass (m : Model) (c : Class) : List Nat :=
  c.generalization.filter (fun j => (lookupClass m j).isSome)

/-- `bases` lifted to a class id. -/
def bases (m : Model) (i : Nat) : List Nat :=
  match lookupClass m i with
  | some c => basesOfClass m c
  | none => []

/-- Modelled from the spec: `lookup` into the override table; exact
string match, no fallback (§4.2). -/
def lookupOverride (ov : Overrides) (k : String) : Option OverrideEntry :=
  (ov.find? (fun p => p.1 == k)).map (fun p => p.2)

/-- `Overrides.has_override` (modelled from the spec §4.2). -/
def has_override (ov : Overrides) (k : String) : Bool :=
  (lookupOverride ov k).isSome

/-- `Overrides.get_override`: the literal replacement text (spec §4.2). -/
def get_override (ov : Overrides) (k : String) : String :=
  match lookupOverride ov k with
  | some e => e.text
  | none => ""

/-- `Overrides.get_type`: the type annotation of an entry (spec §4.5
rule 1: "type annotation only, not a full statement"). -/
def get_type (ov : Overrides) (k : String) : String :=
  match lookupOverride ov k with
  | some e => e.otype
  | none => ""

/-- Python truthiness of an optional string: None and "" are falsy. -/
def pyTruthy : Option String → Bool
  | none => false
  | some s => s != ""

/-- Rendering of an optional string in a Python f-string: None prints as
"None". -/
def pyOpt : Option String → String
  | none => "None"
  | some s => s

/-- Helper for `pyTitle`: the boolean records whether the previous
character was alphabetic. -/
def pyTitleGo : List Char → Bool → List Char
  | [], _ => []
  | ch :: rest, prevAlpha =>
    (if ch.isAlpha then (if prevAlpha then ch.toLower else ch.toUpper) else ch)
      :: pyTitleGo rest ch.isAlpha

/-- Python `str.title()` (ASCII): the first character of every alphabetic
run is uppercased and the rest lowercased; used on integer/boolean
defaults at coder.py line 147. -/
def pyTitle (s : String) : String :=
  String.mk (pyTitleGo s.data false)

/-- Prefix test on character lists (executable replacement for the
opaque built-in string primitives). -/
def charPrefix : List Char → List Char → Bool
  | [], _ => true
  | _ :: _, [] => false
  | a :: as, b :: bs => a == b && charPrefix as bs

/-- Python `str.endswith` over the character list. -/
def strEndsWith (s t : String) : Bool :=
  charPrefix t.data.reverse s.data.reverse

/-- Helper for `pySplit`; the accumulator holds the current field in
reverse. -/
def pySplitGo : List Char → List Char → List String
  | [], acc => [String.mk acc.reverse]
  | c :: rest, acc =>
    if c == ',' then String.mk acc.reverse :: pySplitGo rest []
    else pySplitGo rest (c :: acc)

/-- Python `str.split(",")`: splits at every comma; the empty string
yields `[""]`. -/
def pySplit (s : String) : List String := pySplitGo s.data []

/-- Python `str.strip()`: drop whitespace from both ends. -/
def pyStrip (s : String) : String :=
  String.mk ((s.data.dropWhile Char.isWhitespace).reverse.dropWhile Char.isWhitespace).reverse

/-- Lexicographic (code-point) order on character lists, as Python
compares strings. -/
def charListLtB : List Char → List Char → Bool
  | _, [] => false
  | [], _ :: _ => true
  | a :: as, b :: bs =>
    if a.toNat < b.toNat then true
    else if b.toNat < a.toNat then false
    else charListLtB as bs

/-- Python string `<`. -/
def strLtB (s t : String) : Bool := charListLtB s.data t.data

/-- Insert into a list sorted by a string key, keeping equal keys
stable (the new element goes before the first strictly greater key,
after equal ones it follows in the original order). -/
def insertByKey {α : Type} (key : α → String) (x : α) : List α → List α
  | [] => [x]
  | y :: ys =>
    if strLtB (key y) (key x) then y :: insertByKey key x ys
    else x :: y :: ys

/-- Stable sort by a string key: the semantics of Python's
`sorted(xs, key=...)`. -/
def sortByKey {α : Type} (key : α → String) : List α → List α
  | [] => []
  | x :: xs => insertByKey key x (sortByKey key xs)

/-- Join a list of strings with a separator (Python `sep.join`). -/
def strJoin (sep : String) : List String → String
  | [] => ""
  | [s] => s
  | s :: rest => s ++ sep ++ strJoin sep rest

/-- `is_enumeration` (coder.py lines 199-200): name ends in "Kind" or
"Sort" (an empty name is falsy in Python and also fails both suffix
tests here). -/
def is_enumeration (c : Class) : Bool :=
  strEndsWith c.name "Kind" || strEndsWith c.name "Sort"

/-- `is_simple_type` (coder.py lines 203-210): a class is simple when it
carries the SimpleAttribute stereotype or any transitive general does.
Fuel bounds the recursion depth through the generalization graph. -/
def is_simple_typeClass (m : Model) : Nat → Class → Bool
  | 0, c => c.appliedStereotypes.contains "SimpleAttribute"
  | Nat.succ f, c =>
    c.appliedStereotypes.contains "SimpleAttribute" ||
      (basesOfClass m c).any (fun g =>
        match lookupClass m g with
        | some gc => is_simple_typeClass m f gc
        | none => false)

/-- `is_simple_type` applied to a property's `type` reference (the call
sites pass `a.type`); an unset type is treated as not simple. -/
def is_simple_type (m : Model) (fuel : Nat) (t : Option Nat) : Bool :=
  match t with
  | some i =>
    match lookupClass m i with
    | some c => is_simple_typeClass m fuel c
    | none => false
  | none => false

/-- `attribute(c, name)` (coder.py lines 247-255): find a property by
name among the class's own attributes, else depth-first through the
bases. -/
def attributeByName (m : Model) : Nat → Class → String → Option Property
  | fuel, c, nm =>
    match c.ownedAttribute.find? (fun a => a.name == nm) with
    | some a => some a
    | none =>
      match fuel with
      | 0 => none
      | Nat.succ f =>
        (basesOfClass m c).findSome? (fun b =>
          match lookupClass m b with
          | some bc => attributeByName m f bc nm
          | none => none)

/-- Inner `test` of `is_reassignment` (coder.py lines 213-220). -/
def reassignTest (m : Model) : Nat → Nat → String → Bool
  | 0, _, _ => false
  | Nat.succ f, cid, nm =>
    match lookupClass m cid with
    | some c =>
      c.ownedAttribute.any (fun attr => attr.name == nm) ||
        (basesOfClass m c).any (fun b => reassignTest m f b nm)
    | none => false

/-- `is_reassignment(a)`: the attribute's name reappears on some strict
ancestor of its owner. -/
def is_reassignment (m : Model) (fuel : Nat) (a : Property) : Bool :=
  (bases m a.ownerId).any (fun b => reassignTest m fuel b a.name)

/-- Inner `test` of `is_in_profile` (coder.py lines 223-227), walking
`owningPackage` links upward. -/
def profileTest (m : Model) : Nat → Nat → Bool
  | 0, _ => false
  | Nat.succ f, pid =>
    match lookupPackage m pid with
    | some p =>
      p.isProfile ||
        (match p.owningPackage with
         | some q => profileTest m f q
         | none => false)
    | none => false

/-- `is_in_profile(c)`: the nearest enclosing chain of packages contains
a Profile. -/
def is_in_profile (m : Model) (c : Class) : Bool :=
  match c.owningPackage with
  | some pid => profileTest m (m.packages.length + 1) pid
  | none => false

/-- `redefines(a)` (coder.py lines 239-244): the value of the first
"redefines" slot, if any. -/
def redefines (a : Property) : Option String :=
  (a.slots.find? (fun s => s.definingFeature == "redefines")).map (fun s => s.value)

/-- The name of a property's resolved type class, as a Python f-string
renders `a.type.name` (an unresolved reference renders as "None"). -/
def typeName (m : Model) (t : Option Nat) : String :=
  match t with
  | some i =>
    match lookupClass m i with
    | some c => c.name
    | none => "None"
  | none => "None"

/-- `a.owner.name` for a property, through the owner back-reference. -/
def ownerName (m : Model) (a : Property) : String :=
  match lookupClass m a.ownerId with
  | some c => c.name
  | none => "None"

/-- One element of a generator's stream: an output line or a logged
warning (`log.warning` in the source; warnings are never printed). -/
inductive Entry where
  | line : String → Entry
  | warn : String → Entry
deriving DecidableEq

/-- The printed lines of an entry stream (warnings go to the log, not
to the output). -/
def entryLines : List Entry → List String
  | [] => []
  | Entry.line s :: r => s :: entryLines r
  | Entry.warn _ :: r => entryLines r

/-- `default_value(a)` (coder.py lines 144-156).  A declared default on
an `int`-typed attribute is rendered through Python `str.title()`, on a
`str`-typed attribute it is quoted; any other type with a truthy
default raises `ValueError`, modelled as `Except.error` (which aborts
the run). -/
def default_value (m : Model) (a : Property) : Except String String :=
  if pyTruthy a.defaultValue then
    let dv := a.defaultValue.getD ""
    if a.typeValue == some "int" then Except.ok (", default=" ++ pyTitle dv)
    else if a.typeValue == some "str" then Except.ok (", default=\"" ++ dv ++ "\"")
    else
      Except.error ("Unknown default value type: " ++ ownerName m a ++ "." ++ a.name
        ++ ": " ++ pyOpt a.typeValue ++ " = " ++ dv)
  else Except.ok ""

/-- The enumeration declaration (coder.py lines 83-84).  The source
indexes `a.type.ownedAttribute[0]`; an enumeration class without
attributes would raise IndexError there, which is outside the claims
and rendered as an empty default here. -/
def enumLine (m : Model) (a : Property) : String :=
  let attrs :=
    match a.typeId with
    | some i =>
      match lookupClass m i with
      | some tc => tc.ownedAttribute
      | none => []
    | none => []
  let vals := strJoin ", " (attrs.map (fun e => "\"" ++ e.name ++ "\""))
  let first :=
    match attrs.head? with
    | some e => e.name
    | none => ""
  a.name ++ " = _enumeration(\"" ++ a.name ++ "\", (" ++ vals ++ "), \"" ++ first ++ "\")"

/-- The per-attribute body of `variables` (coder.py lines 70-86), in the
source's branch order: member override, underivable derived attribute,
simple-type collapse, relation declaration, enumeration, plain scalar
(where a bad default aborts). -/
def variableAttrLines (m : Model) (ov : Overrides) (cname : String) (a : Property) :
    Except String (List Entry) :=
  let fullName := cname ++ "." ++ a.name
  if has_override ov fullName then
    Except.ok [Entry.line (a.name ++ ": " ++ get_type ov fullName)]
  else if a.isDerived && !a.association then
    Except.ok [Entry.warn ("Derived attribute " ++ fullName ++ " has no implementation.")]
  else if a.association && is_simple_type m (modelFuel m) a.typeId then
    Except.ok [Entry.line (a.name ++ ": _attribute[str] = _attribute(\"" ++ a.name ++ "\", str)")]
  else if a.association then
    let mult := if a.upper == "1" then "one" else "many"
    let comment :=
      if is_reassignment m (modelFuel m) a then "  # type: ignore[assignment]" else ""
    Except.ok [Entry.line (a.name ++ ": relation_" ++ mult ++ "[" ++ typeName m a.typeId ++ "]" ++ comment)]
  else if (match a.typeId with
           | some i =>
             match lookupClass m i with
             | some tc => is_enumeration tc
             | none => false
           | none => false) then
    Except.ok [Entry.line (enumLine m a)]
  else
    match default_value m a with
    | Except.error e => Except.error e
    | Except.ok dv =>
      Except.ok [Entry.line (a.name ++ ": _attribute[" ++ pyOpt a.typeValue
        ++ "] = _attribute(\"" ++ a.name ++ "\", " ++ pyOpt a.typeValue ++ dv ++ ")")]

/-- Sequence `variableAttrLines` over a list of attributes, aborting at
the first error as the raised ValueError does. -/
def variablesAttrs (m : Model) (ov : Overrides) (cname : String) :
    List Property → Except String (List Entry)
  | [] => Except.ok []
  | a :: rest =>
    match variableAttrLines m ov cname a with
    | Except.error e => Except.error e
    | Except.ok es =>
      match variablesAttrs m ov cname rest with
      | Except.error e => Except.error e
      | Except.ok r => Except.ok (es ++ r)

/-- The per-operation body of `variables` (coder.py lines 89-94). -/
def variableOpLines (ov : Overrides) (cname : String) (o : Operation) : Entry :=
  let fullName := cname ++ "." ++ o.name
  if has_override ov fullName then Entry.line (o.name ++ ": " ++ get_type ov fullName)
  else Entry.warn ("Operation " ++ fullName ++ " has no implementation")

/-- `variables(class_, overrides)` (coder.py lines 68-94): attributes
sorted by name, then operations sorted by name. -/
def variablesOf (m : Model) (ov : Overrides) (c : Class) : Except String (List Entry) :=
  match variablesAttrs m ov c.name (sortByKey (fun a => a.name) c.ownedAttribute) with
  | Except.error e => Except.error e
  | Except.ok va =>
    Except.ok (va ++ (sortByKey (fun o => o.name) c.ownedOperation).map (variableOpLines ov c.name))

/-- `operations(c, overrides)` (coder.py lines 136-141): only overridden
operations produce output lines. -/
def operations (ov : Overrides) (c : Class) : List String :=
  (sortByKey (fun o => o.name) c.ownedOperation).filterMap (fun o =>
    let fullName := c.name ++ "." ++ o.name
    if has_override ov fullName then some (get_override ov fullName) else none)

/-- `lower(a)` (coder.py lines 159-160). -/
def lower (a : Property) : String :=
  match a.lowerValue with
  | none => ""
  | some s => if s == "0" then "" else ", lower=" ++ s

/-- `upper(a)` (coder.py lines 163-164). -/
def upper (a : Property) : String :=
  match a.upperValue with
  | none => ""
  | some s => if s == "*" then "" else ", upper=" ++ s

/-- `composite(a)` (coder.py lines 167-168). -/
def composite (a : Property) : String :=
  if a.aggregation == "composite" then ", composite=True" else ""

/-- `opposite(a)` (coder.py lines 171-176); the name must be truthy and
`class_` set, else the clause is omitted. -/
def opposite (a : Property) : String :=
  match a.opposite with
  | some o =>
    if pyTruthy o.name && o.class_ then ", opposite=\"" ++ (o.name.getD "") ++ "\""
    else ""
  | none => ""

/-- The `redefine(...)` statement (coder.py line 107). -/
def redefLine (m : Model) (cname : String) (a : Property) : String :=
  cname ++ "." ++ a.name ++ " = redefine(" ++ cname ++ ", \"" ++ a.name ++ "\", "
    ++ typeName m a.typeId ++ ", " ++ (redefines a).getD "" ++ ")"

/-- The `derivedunion(...)` statement (coder.py line 110). -/
def duLine (m : Model) (cname : String) (a : Property) : String :=
  cname ++ "." ++ a.name ++ " = derivedunion(\"" ++ a.name ++ "\", "
    ++ typeName m a.typeId ++ lower a ++ upper a ++ ")"

/-- The `association(...)` statement (coder.py line 112). -/
def assocLine (m : Model) (cname : String) (a : Property) : String :=
  cname ++ "." ++ a.name ++ " = association(\"" ++ a.name ++ "\", "
    ++ typeName m a.typeId ++ lower a ++ upper a ++ composite a ++ opposite a ++ ")"

/-- The first loop of `associations` (coder.py lines 98-112): the main
stream of statements together with the buffered redefinition
statements (`redefinitions` in the source). -/
def assocLoop (m : Model) (ov : Overrides) (cname : String) :
    List Property → List Entry × List String
  | [] => ([], [])
  | a :: rest =>
    let r := assocLoop m ov cname rest
    let fullName := cname ++ "." ++ a.name
    if has_override ov fullName then (Entry.line (get_override ov fullName) :: r.1, r.2)
    else if !a.association || is_simple_type m (modelFuel m) a.typeId then r
    else if pyTruthy (redefines a) then (r.1, redefLine m cname a :: r.2)
    else if a.isDerived then (Entry.line (duLine m cname a) :: r.1, r.2)
    else (Entry.line (assocLine m cname a) :: r.1, r.2)

/-- One comma-separated target of a "subsets" slot (coder.py
lines 122-133): resolve by name, warn when undefined or not a derived
union, else emit the `.add` registration statement. -/
def subsetValueEntry (m : Model) (c : Class) (fullName : String) (v : String) : Entry :=
  let val := pyStrip v
  match attributeByName m (modelFuel m) c val with
  | some d =>
    if d.isDerived then
      Entry.line (ownerName m d ++ "." ++ d.name ++ ".add(" ++ fullName ++ ")")
    else
      Entry.warn (fullName ++ " wants to subset " ++ val ++ ", but it is not a derived union")
  | none =>
    Entry.warn (fullName ++ " wants to subset " ++ val ++ ", but it is not defined")

/-- The subsets processing of one attribute (coder.py lines 116-133):
every "subsets" slot of a non-simple attribute contributes one entry
per comma-separated value; simple-typed attributes are skipped. -/
def subsetEntriesAttr (m : Model) (c : Class) (a : Property) : List Entry :=
  a.slots.flatMap (fun slot =>
    if slot.definingFeature == "subsets" then
      if is_simple_type m (modelFuel m) a.typeId then []
      else (pySplit slot.value).map (subsetValueEntry m c (c.name ++ "." ++ a.name))
    else [])

/-- `associations(c, overrides)` (coder.py lines 97-134): the main
statements, then the buffered redefinitions, then the subsets loop. -/
def associations (m : Model) (ov : Overrides) (c : Class) : List Entry :=
  let r := assocLoop m ov c.name c.ownedAttribute
  r.1 ++ r.2.map Entry.line ++ c.ownedAttribute.flatMap (subsetEntriesAttr m c)

/-- Spec-side view of the first `associations` loop: the entry an
attribute contributes to the main (non-redefinition) stream, if any. -/
def assocMainEntry (m : Model) (ov : Overrides) (cname : String) (a : Property) : Option Entry :=
  let fullName := cname ++ "." ++ a.name
  if has_override ov fullName then some (Entry.line (get_override ov fullName))
  else if !a.association || is_simple_type m (modelFuel m) a.typeId then none
  else if pyTruthy (redefines a) then none
  else if a.isDerived then some (Entry.line (duLine m cname a))
  else some (Entry.line (assocLine m cname a))

/-- Spec-side view of the first `associations` loop: the redefinition
statement an attribute contributes to the buffer, if any. -/
def assocRedefEntry (m : Model) (ov : Overrides) (cname : String) (a : Property) : Option String :=
  let fullName := cname ++ "." ++ a.name
  if has_override ov fullName then none
  else if !a.association || is_simple_type m (modelFuel m) a.typeId then none
  else if pyTruthy (redefines a) then some (redefLine m cname a)
  else none

/-- `class_declaration(class_)` (coder.py lines 61-65): the base class
names sorted by name. -/
def class_declaration (m : Model) (c : Class) : String :=
  let names := (basesOfClass m c).filterMap (fun i => (lookupClass m i).map (fun bc => bc.name))
  "class " ++ c.name ++ "(" ++ strJoin ", " (sortByKey (fun s => s) names) ++ "):"

/-- Class search of `last_minute_updates` (coder.py lines 266-271):
the first class whose name equals the placeholder. -/
def findClassIdByName (m : Model) (tv : Option String) : Option Nat :=
  (m.classes.find? (fun ic => (some ic.2.name) == tv)).map (fun ic => ic.1)

/-- The per-property body of `last_minute_updates` (coder.py
lines 260-274): rewrite "String" to "str" and "Integer"/"Boolean" to
"int"; otherwise resolve the placeholder to a class of that name,
clearing it, or leave the property untouched. -/
def link_property (m : Model) (p : Property) : Property :=
  if p.typeValue == some "String" then { p with typeValue := some "str" }
  else if p.typeValue == some "Integer" || p.typeValue == some "Boolean" then
    { p with typeValue := some "int" }
  else
    match findClassIdByName m p.typeValue with
    | some i => { p with typeId := some i, typeValue := none }
    | none => p

/-- `last_minute_updates` (coder.py lines 258-274): the Type Linker
pass over every Property of the model.  Class names are never changed,
so resolving against the original model is exact. -/
def last_minute_updates (m : Model) : Model :=
  { m with
    classes := m.classes.map (fun ic =>
      (ic.1, { ic.2 with ownedAttribute := ic.2.ownedAttribute.map (link_property m) })) }

/-- The inner generator `order` of `order_classes` (coder.py
lines 182-187): visit the unvisited bases first, then emit the class
and mark it seen.  The fuel bounds the recursion depth; Python recurses
unboundedly and does not terminate on a cyclic generalization graph. -/
def orderVisit (m : Model) : Nat → Nat → List Nat → List Nat × List Nat
  | 0, _, seen => ([], seen)
  | Nat.succ f, c, seen =>
    if seen.contains c then ([], seen)
    else
      let r := (bases m c).foldl (fun acc b =>
        let r2 := orderVisit m f b acc.2
        (acc.1 ++ r2.1, r2.2)) (([] : List Nat), seen)
      (r.1 ++ [c], c :: r.2)

/-- Sequential form of visiting a list of classes, threading the seen
set; `orderVisit`'s fold and the top-level loop of `order_classes` are
both instances of it (proved below). -/
def orderSeq (m : Model) (fuel : Nat) : List Nat → List Nat → List Nat × List Nat
  | [], seen => ([], seen)
  | b :: bs, seen =>
    let r1 := orderVisit m fuel b seen
    let r2 := orderSeq m fuel bs r1.2
    (r1.1 ++ r2.1, r2.2)

/-- `order_classes(classes)` (coder.py lines 179-191): emit every class
after its unvisited bases, in input order. -/
def order_classes (m : Model) (fuel : Nat) (cs : List Nat) : List Nat :=
  (cs.foldl (fun acc c =>
    let r := orderVisit m fuel c acc.2
    (acc.1 ++ r.1, r.2)) (([] : List Nat), ([] : List Nat))).1

/-- The generation set (coder.py lines 294-300): all classes that are
not enumerations, not simple-attribute classes and not inside a
profile package, in factory order. -/
def generationSet (m : Model) : List Nat :=
  (m.classes.filter (fun ic =>
    !(is_enumeration ic.2 || is_simple_typeClass m (modelFuel m) ic.2 || is_in_profile m ic.2))).map
    (fun ic => ic.1)

/-- The declaration block of one ordered class (coder.py lines 304-316):
the override text verbatim, or the class header plus indented members
(`pass` when empty), followed by the two blank separator lines. -/
def classBlock (m : Model) (ov : Overrides) (cid : Nat) : Except String (List String) :=
  match lookupClass m cid with
  | none => Except.ok []
  | some c =>
    if has_override ov c.name then Except.ok [get_override ov c.name, "", ""]
    else
      match variablesOf m ov c with
      | Except.error e => Except.error e
      | Except.ok es =>
        let ps := entryLines es
        Except.ok ([class_declaration m c]
          ++ (if ps.isEmpty then ["    pass"] else ps.map (fun p => "    " ++ p))
          ++ ["", ""])

/-- All declaration blocks in order, aborting at the first error. -/
def classBlocks (m : Model) (ov : Overrides) : List Nat → Except String (List String)
  | [] => Except.ok []
  | cid :: rest =>
    match classBlock m ov cid with
    | Except.error e => Except.error e
    | Except.ok b =>
      match classBlocks m ov rest with
      | Except.error e => Except.error e
      | Except.ok r => Except.ok (b ++ r)

/-- The operation section of the output (coder.py lines 318-320). -/
def operationSection (m : Model) (ov : Overrides) : List String :=
  (order_classes m (modelFuel m) (generationSet m)).flatMap (fun cid =>
    match lookupClass m cid with
    | some c => operations ov c
    | none => [])

/-- The association section of the output (coder.py lines 324-326). -/
def associationSection (m : Model) (ov : Overrides) : List String :=
  (order_classes m (modelFuel m) (generationSet m)).flatMap (fun cid =>
    match lookupClass m cid with
    | some c => entryLines (associations m ov c)
    | none => [])

/-- The fixed preamble (coder.py lines 35-58), one list element per
printed line. -/
def headerLines : List String :=
  ["# This file is generated by coder.py. DO NOT EDIT!",
   "# isort: skip_file",
   "# flake8: noqa F401,F811",
   "# fmt: off",
   "",
   "from __future__ import annotations",
   "",
   "from typing import Callable",
   "",
   "from gaphor.core.modeling.properties import (",
   "    association,",
   "    attribute as _attribute,",
   "    derived,",
   "    derivedunion,",
   "    enumeration as _enumeration,",
   "    redefine,",
   "    relation_many,",
   "    relation_one,",
   ")"]

/-- `coder(modelfile, overrides, out)` (coder.py lines 291-326) after
model loading: the full ordered output stream, or the error that
aborted the run. -/
def coder (m : Model) (ov : Overrides) : Except String (List String) :=
  match classBlocks m ov (order_classes m (modelFuel m) (generationSet m)) with
  | Except.error e => Except.error e
  | Except.ok blocks =>
    Except.ok (headerLines ++ [""] ++ blocks ++ operationSection m ov ++ [""]
      ++ associationSection m ov)

/-- Strict ancestor relation of the generalization graph: `Anc m a b`
holds when `a` is a direct or transitive base of `b`. -/
inductive Anc (m : Model) : Nat → Nat → Prop
  | base {i j : Nat} : j ∈ bases m i → Anc m j i
  | step {i j k : Nat} : Anc m k j → j ∈ bases m i → Anc m k i

/-- Decidable description of an input sequence that lists every class
after all of its direct bases and contains no duplicates; `earlier`
accumulates the already-listed classes. -/
def topoOK (m : Model) : List Nat → List Nat → Bool
  | _, [] => true
  | earlier, c :: rest =>
    !(earlier.contains c) && (bases m c).all (fun b => earlier.contains b)
      && topoOK m (c :: earlier) rest

/-- The linking invariant claimed by the spec: exactly one of a
resolved class reference and a canonical primitive placeholder
("str" or "int"). -/
def exactlyOneTypeB (p : Property) : Bool :=
  (p.typeId.isSome && p.typeValue == none)
    || (p.typeId == none && (p.typeValue == some "str" || p.typeValue == some "int"))

/-- A property with every optional feature absent (building block for
the concrete test models below). -/
def plainProp (nm : String) (owner : Nat) : Property :=
  { name := nm, ownerId := owner, typeId := none, typeValue := none,
    isDerived := false, association := false, upper := "1", lowerValue := none,
    upperValue := none, aggregation := "none", defaultValue := none,
    opposite := none, slots := [] }

/-- A class with no members, generalizations or stereotypes. -/
def plainClass (nm : String) : Class :=
  { name := nm, ownedAttribute := [], ownedOperation := [], generalization := [],
    appliedStereotypes := [], owningPackage := none }

/-- Test model for C1: two independent classes. -/
def mW1 : Model := { classes := [(0, plainClass "A"), (1, plainClass "B")], packages := [] }

/-- Test model for C2's witness: one class with one attribute and one
operation, all three qualified names overridden. -/
def xW2 : Property := plainProp "x" 0

def cW2 : Class :=
  { plainClass "C" with ownedAttribute := [xW2], ownedOperation := [⟨"f"⟩] }

def mW2 : Model := { classes := [(0, cW2)], packages := [] }

def ovW2 : Overrides :=
  [("C", ⟨"OVERRIDE CLASS C", "TC"⟩), ("C.x", ⟨"OVERRIDE X", "int"⟩),
   ("C.f", ⟨"OVERRIDE F", "Callable[[], int]"⟩)]

/-- Test override table for C2's counterexample: a member override whose
literal text differs from its type annotation. -/
def ovX2 : Overrides := [("C.x", ⟨"REPLACED", "int"⟩)]

def xX2 : Property := plainProp "x" 0

def mX2 : Model :=
  { classes := [(0, { plainClass "C" with ownedAttribute := [xX2] })], packages := [] }

/-- Test model for C3's counterexample: a property whose placeholder
"String" is rewritten to "str" on the first pass, next to a class that
is literally named "str"; the second pass resolves the rewritten
placeholder to that class. -/
def mX3 : Model :=
  { classes :=
      [(0, plainClass "str"),
       (1, { plainClass "A" with
              ownedAttribute := [{ plainProp "x" 1 with typeValue := some "String" }] })],
    packages := [] }

/-- Test model for C3's and C4's witnesses: a "String" placeholder and
no class named "str" or "int". -/
def pW3 : Property := { plainProp "x" 0 with typeValue := some "String" }

def cW3 : Class := { plainClass "A" with ownedAttribute := [pW3] }

def mW3 : Model := { classes := [(0, cW3)], packages := [] }

/-- Test model for C4's counterexample: a placeholder matching neither
a well-known name nor any class stays unresolved and non-canonical. -/
def pX4 : Property := { plainProp "x" 0 with typeValue := some "Foo" }

def cX4 : Class := { plainClass "A" with ownedAttribute := [pX4] }

def mX4 : Model := { classes := [(0, cX4)], packages := [] }

/-- Test data for C5: an integer-typed attribute with default "true"
(counterexample input) and a string-typed one with default "x" plus a
float-typed one with a default (witness inputs). -/
def aX5 : Property :=
  { plainProp "x" 0 with typeValue := some "int", defaultValue := some "true" }

def aW5 : Property :=
  { plainProp "x" 0 with typeValue := some "str", defaultValue := some "x" }

def aW5e : Property :=
  { plainProp "x" 0 with typeValue := some "float", defaultValue := some "1.5" }

def mW5 : Model :=
  { classes := [(0, { plainClass "A" with ownedAttribute := [aX5, aW5, aW5e] })],
    packages := [] }

/-- Test model for C6's counterexample: C specializes B, A is unrelated;
listing C before A and B hoists B past A. -/
def mX6 : Model :=
  { classes :=
      [(0, plainClass "A"), (1, plainClass "B"),
       (2, { plainClass "C" with generalization := [1] })],
    packages := [] }

/-- Test model for C6's witness: B specializes A and the input lists A
first. -/
def mW6 : Model :=
  { classes := [(0, plainClass "A"), (1, { plainClass "B" with generalization := [0] })],
    packages := [] }

/-- Test model for C7: class C has a multi-valued association attribute
x whose type S is a simple-attribute class. -/
def xC7 : Property :=
  { plainProp "x" 0 with
    association := true, typeId := some 1, upper := "*", upperValue := some "*" }

def cC7 : Class := { plainClass "C" with ownedAttribute := [xC7] }

def mC7 : Model :=
  { classes :=
      [(0, cC7), (1, { plainClass "S" with appliedStereotypes := ["SimpleAttribute"] })],
    packages := [] }

/-- Override table for C7's counterexample. -/
def ovX7 : Overrides := [("C.x", ⟨"OVR", "T"⟩)]

/-- Test model for C8's counterexample: two association attributes in
declaration order b, a. -/
def bX8 : Property := { plainProp "b" 0 with association := true, typeId := some 1 }

def aX8 : Property := { plainProp "a" 0 with association := true, typeId := some 1 }

def cX8 : Class := { plainClass "C" with ownedAttribute := [bX8, aX8] }

def mX8 : Model := { classes := [(0, cX8), (1, plainClass "D")], packages := [] }

/-- Test model for C9's witness: attribute x subsets the derived union
u of its own class. -/
def uW9 : Property :=
  { plainProp "u" 0 with isDerived := true, association := true, typeId := some 1 }

def xW9 : Property :=
  { plainProp "x" 0 with
    association := true, typeId := some 1, slots := [⟨"subsets", "u"⟩] }

def cW9 : Class := { plainClass "C" with ownedAttribute := [uW9, xW9] }

def mW9 : Model := { classes := [(0, cW9), (1, plainClass "D")], packages := [] }

/-- Test model for C10's witness: a class with one attribute and one
operation, overridden at class level. -/
def xW10 : Property := { plainProp "x" 0 with association := true, typeId := some 0 }

def cW10 : Class :=
  { plainClass "C" with ownedAttribute := [xW10], ownedOperation := [⟨"f"⟩] }

def mW10 : Model := { classes := [(0, cW10)], packages := [] }

theorem findClassIdByName_last (m : Model) (tv : Option String) :
    findClassIdByName (last_minute_updates m) tv = findClassIdByName m tv := by
  unfold findClassIdByName last_minute_updates
  simp only [List.find?_map]
  have hp : ((fun ic => (some ic.2.name) == tv) ∘ (fun (ic : Nat × Class) =>
      (ic.1, { ic.2 with ownedAttribute := ic.2.ownedAttribute.map (link_property m) })))
      = fun ic => (some ic.2.name) == tv := rfl
  rw [hp]
  cases m.classes.find? (fun ic => (some ic.2.name) == tv) <;> rfl

theorem findClassIdByName_none (m : Model) : findClassIdByName m none = none := by
  unfold findClassIdByName
  rw [List.find?_eq_none.mpr] <;> simp

theorem findClassIdByName_no_match (m : Model) (s : String)
    (h : ∀ ic ∈ m.classes, ic.2.name ≠ s) :
    findClassIdByName m (some s) = none := by
  unfold findClassIdByName
  rw [List.find?_eq_none.mpr]
  · simp
  · intro ic hic
    simpa using h ic hic

theorem link_property_idem (m : Model)
    (h : ∀ ic ∈ m.classes, ic.2.name ≠ "str" ∧ ic.2.name ≠ "int") (p : Property) :
    link_property (last_minute_updates m) (link_property m p) = link_property m p := by
  have hstr : findClassIdByName m (some "str") = none :=
    findClassIdByName_no_match m "str" (fun ic hic => (h ic hic).1)
  have hint : findClassIdByName m (some "int") = none :=
    findClassIdByName_no_match m "int" (fun ic hic => (h ic hic).2)
  by_cases h1 : p.typeValue = some "String"
  · simp [link_property, h1, findClassIdByName_last, hstr]
  · by_cases h2 : p.typeValue = some "Integer"
    · simp [link_property, h1, h2, findClassIdByName_last, hint]
    · by_cases h3 : p.typeValue = some "Boolean"
      · simp [link_property, h1, h2, h3, findClassIdByName_last, hint]
      · cases hf : findClassIdByName m p.typeValue with
        | some i =>
          simp [link_property, h1, h2, h3, hf, findClassIdByName_last,
            findClassIdByName_none]
        | none =>
          simp [link_property, h1, h2, h3, hf, findClassIdByName_last]

/-- C3 (counterexample): the Type Linker is not idempotent on every
model.  In `mX3` a property's placeholder "String" becomes "str" on the
first run; because the model contains a class literally named "str",
the second run resolves the placeholder to that class, changing the
result. -/
theorem C3_counterexample :
    last_minute_updates (last_minute_updates mX3) ≠ last_minute_updates mX3 := by
  decide

/-- C3 (amended): the Type Linker is idempotent on every model that
contains no class named "str" or "int" (the canonical primitive names
it rewrites placeholders to); running it twice then equals running it
once. -/
theorem C3_linker_idempotent (m : Model)
    (h : ∀ ic ∈ m.classes, ic.2.name ≠ "str" ∧ ic.2.name ≠ "int") :
    last_minute_updates (last_minute_updates m) = last_minute_updates m := by
  show Model.mk ((m.classes.map _).map _) m.packages = Model.mk (m.classes.map _) m.packages
  rw [Model.mk.injEq]
  refine ⟨?_, rfl⟩
  rw [List.map_map]
  apply List.map_congr_left
  intro ic _
  simp only [Function.comp_apply]
  have hattrs : (ic.2.ownedAttribute.map (link_property m)).map
      (link_property (last_minute_updates m)) = ic.2.ownedAttribute.map (link_property m) := by
    rw [List.map_map]
    apply List.map_congr_left
    intro p _
    simp only [Function.comp_apply]
    exact link_property_idem m h p
  rw [Prod.mk.injEq]
  refine ⟨rfl, ?_⟩
  rw [Class.mk.injEq]
  exact ⟨rfl, hattrs, rfl, rfl, rfl, rfl⟩

/-- C3 (witness): the amended idempotence at a concrete model. -/
theorem C3_witness :
    last_minute_updates (last_minute_updates mW3) = last_minute_updates mW3 :=
  C3_linker_idempotent mW3 (by decide)

/-- C4 (counterexample): after the Type Linker pass the model can hold
a property with neither a resolved class type nor a canonical
primitive placeholder: the placeholder "Foo" matches no rewrite rule
and no class, so it survives unresolved. -/
theorem C4_counterexample :
    (0, cX4) ∈ (last_minute_updates mX4).classes ∧ pX4 ∈ cX4.ownedAttribute ∧
      exactlyOneTypeB pX4 = false := by
  decide

/-- C4 (amended): after the Type Linker pass, every property that
started with no resolved class type and whose placeholder either is a
well-known name ("String", "Integer", "Boolean") or names a class of
the model ends with exactly one of a resolved class type and a
canonical primitive placeholder; its linked form is the attribute
stored in the updated model. -/
theorem C4_link_exactly_one (m : Model) (i : Nat) (c : Class) (p : Property)
    (hc : (i, c) ∈ m.classes) (hp : p ∈ c.ownedAttribute) (ht : p.typeId = none)
    (hres : p.typeValue = some "String" ∨ p.typeValue = some "Integer" ∨
      p.typeValue = some "Boolean" ∨ (findClassIdByName m p.typeValue).isSome = true) :
    exactlyOneTypeB (link_property m p) = true ∧
      (i, { c with ownedAttribute := c.ownedAttribute.map (link_property m) })
        ∈ (last_minute_updates m).classes ∧
      link_property m p ∈ c.ownedAttribute.map (link_property m) := by
  refine ⟨?_, ?_, List.mem_map_of_mem _ hp⟩
  · by_cases h1 : p.typeValue = some "String"
    · simp [link_property, exactlyOneTypeB, h1, ht]
    · by_cases h2 : p.typeValue = some "Integer"
      · simp [link_property, exactlyOneTypeB, h1, h2, ht]
      · by_cases h3 : p.typeValue = some "Boolean"
        · simp [link_property, exactlyOneTypeB, h1, h2, h3, ht]
        · have h4 : (findClassIdByName m p.typeValue).isSome = true := by
            rcases hres with h | h | h | h
            · exact absurd h h1
            · exact absurd h h2
            · exact absurd h h3
            · exact h
          rcases Option.isSome_iff_exists.mp h4 with ⟨j, hj⟩
          simp [link_property, exactlyOneTypeB, h1, h2, h3, hj]
  · exact List.mem_map_of_mem _ hc

/-- C4 (witness): the amended invariant at a concrete property whose
placeholder is the well-known name "String". -/
theorem C4_witness :
    exactlyOneTypeB (link_property mW3 pW3) = true ∧
      (0, { cW3 with ownedAttribute := cW3.ownedAttribute.map (link_property mW3) })
        ∈ (last_minute_updates mW3).classes ∧
      link_property mW3 pW3 ∈ cW3.ownedAttribute.map (link_property mW3) :=
  C4_link_exactly_one mW3 0 cW3 pW3 (by decide) (by decide) (by decide)
    (Or.inl (by decide))

/-- C5 (counterexample): a declared default on an integer/boolean-typed
scalar attribute is not rendered as-is: the source pipes it through
Python `str.title()`, so the default "true" is emitted as "True". -/
theorem C5_counterexample :
    default_value mW5 aX5 = Except.ok ", default=True" ∧
      default_value mW5 aX5 ≠ Except.ok ", default=true" := by
  refine ⟨rfl, fun hcontra => ?_⟩
  rw [show default_value mW5 aX5 = Except.ok ", default=True" from rfl] at hcontra
  have h3 : (", default=True" : String) = ", default=true" := by
    injection hcontra
  exact absurd h3 (by decide)

/-- C5 (amended): for a plain scalar attribute with a declared truthy
default: a "str"-typed default is emitted quoted, an "int"-typed
(integer/boolean) default is emitted title-cased via `pyTitle` (not
as-is), and any other declared scalar type yields a fatal error which
propagates out of the attribute classifier (aborting generation); an
attribute with no declared default never triggers the error. -/
theorem C5_default_value (m : Model) (ov : Overrides) (cname : String) (a : Property) :
    (a.defaultValue = none → default_value m a = Except.ok "") ∧
    (∀ dv, a.defaultValue = some dv → dv ≠ "" →
      (a.typeValue = some "str" →
        default_value m a = Except.ok (", default=\"" ++ dv ++ "\"")) ∧
      (a.typeValue = some "int" →
        default_value m a = Except.ok (", default=" ++ pyTitle dv)) ∧
      (a.typeValue ≠ some "int" → a.typeValue ≠ some "str" →
        default_value m a = Except.error ("Unknown default value type: "
          ++ ownerName m a ++ "." ++ a.name ++ ": " ++ pyOpt a.typeValue ++ " = " ++ dv) ∧
        (has_override ov (cname ++ "." ++ a.name) = false → a.isDerived = false →
          a.association = false → a.typeId = none →
          variableAttrLines m ov cname a = Except.error ("Unknown default value type: "
            ++ ownerName m a ++ "." ++ a.name ++ ": " ++ pyOpt a.typeValue ++ " = " ++ dv)))) := by
  constructor
  · intro h
    simp [default_value, pyTruthy, h]
  · intro dv hdv hne
    have htr : pyTruthy (some dv) = true := by
      simp [pyTruthy, hne]
    refine ⟨?_, ?_, ?_⟩
    · intro hstr
      have hni : a.typeValue ≠ some "int" := by simp [hstr]
      simp [default_value, htr, hdv, hstr, hni]
    · intro hint
      simp [default_value, htr, hdv, hint]
    · intro hint hstr
      have herr : default_value m a = Except.error ("Unknown default value type: "
          ++ ownerName m a ++ "." ++ a.name ++ ": " ++ pyOpt a.typeValue ++ " = " ++ dv) := by
        simp [default_value, htr, hdv, hint, hstr]
      refine ⟨herr, ?_⟩
      intro hov hder hassoc htid
      simp [variableAttrLines, hov, hder, hassoc, htid, herr]

theorem contains_iff (l : List Nat) (c : Nat) : l.contains c = true ↔ c ∈ l := by
  simp [List.contains, List.elem_iff]

theorem orderFold (m : Model) (fuel : Nat) (l : List Nat) :
    ∀ (out0 seen : List Nat),
      l.foldl (fun acc b =>
        let r2 := orderVisit m fuel b acc.2
        (acc.1 ++ r2.1, r2.2)) (out0, seen)
      = (out0 ++ (orderSeq m fuel l seen).1, (orderSeq m fuel l seen).2) := by
  induction l with
  | nil => intro out0 seen; simp [orderSeq]
  | cons b bs ih =>
    intro out0 seen
    simp only [List.foldl_cons, orderSeq]
    rw [ih]
    simp [List.append_assoc]

theorem orderVisit_succ (m : Model) (f : Nat) (c : Nat) (seen : List Nat) :
    orderVisit m (f + 1) c seen =
      if c ∈ seen then ([], seen)
      else ((orderSeq m f (bases m c) seen).1 ++ [c],
        c :: (orderSeq m f (bases m c) seen).2) := by
  by_cases h : c ∈ seen
  · simp [orderVisit, h]
  · simp only [orderVisit]
    rw [orderFold]
    simp [h]

theorem order_classes_eq_seq (m : Model) (fuel : Nat) (cs : List Nat) :
    order_classes m fuel cs = (orderSeq m fuel cs []).1 := by
  unfold order_classes
  rw [orderFold]
  simp

theorem orderVisit_seen (m : Model) : ∀ fuel c seen,
    (orderVisit m fuel c seen).2 = (orderVisit m fuel c seen).1.reverse ++ seen := by
  intro fuel
  induction fuel with
  | zero => intro c seen; simp [orderVisit]
  | succ f ih =>
    have hseq : ∀ l seen, (orderSeq m f l seen).2 = (orderSeq m f l seen).1.reverse ++ seen := by
      intro l
      induction l with
      | nil => intro seen; simp [orderSeq]
      | cons b bs ihl =>
        intro seen
        simp only [orderSeq]
        rw [ihl, ih]
        simp
    intro c seen
    rw [orderVisit_succ]
    by_cases h : c ∈ seen
    · simp [h]
    · simp only [h, if_false]
      rw [hseq]
      simp

theorem orderSeq_seen (m : Model) (fuel : Nat) : ∀ l seen,
    (orderSeq m fuel l seen).2 = (orderSeq m fuel l seen).1.reverse ++ seen := by
  intro l
  induction l with
  | nil => intro seen; simp [orderSeq]
  | cons b bs ihl =>
    intro seen
    simp only [orderSeq]
    rw [ihl, orderVisit_seen]
    simp

theorem orderSeq_disj_of_visit (m : Model) (fuel : Nat)
    (hv : ∀ c seen x, x ∈ (orderVisit m fuel c seen).1 → x ∉ seen) :
    ∀ l seen x, x ∈ (orderSeq m fuel l seen).1 → x ∉ seen := by
  intro l
  induction l with
  | nil => intro seen x hx; simp [orderSeq] at hx
  | cons b bs ih =>
    intro seen x hx
    simp only [orderSeq, List.mem_append] at hx
    rcases hx with hx | hx
    · exact hv b seen x hx
    · have h2 := ih (orderVisit m fuel b seen).2 x hx
      rw [orderVisit_seen] at h2
      intro hxs
      exact h2 (List.mem_append.mpr (Or.inr hxs))

theorem orderVisit_disj (m : Model) : ∀ fuel c seen x,
    x ∈ (orderVisit m fuel c seen).1 → x ∉ seen := by
  intro fuel
  induction fuel with
  | zero => intro c seen x hx; simp [orderVisit] at hx
  | succ f ih =>
    intro c seen x hx
    rw [orderVisit_succ] at hx
    by_cases h : c ∈ seen
    · simp [h] at hx
    · simp only [h, if_false, List.mem_append, List.mem_singleton] at hx
      rcases hx with hx | rfl
      · exact orderSeq_disj_of_visit m f ih (bases m c) seen x hx
      · exact h

theorem orderSeq_disj (m : Model) (fuel : Nat) :
    ∀ l seen x, x ∈ (orderSeq m fuel l seen).1 → x ∉ seen :=
  orderSeq_disj_of_visit m fuel (orderVisit_disj m fuel)

theorem orderSeq_anc_of_visit (m : Model) (fuel : Nat)
    (hv : ∀ c seen x, x ∈ (orderVisit m fuel c seen).1 → x = c ∨ Anc m x c) :
    ∀ l seen x, x ∈ (orderSeq m fuel l seen).1 → ∃ b ∈ l, x = b ∨ Anc m x b := by
  intro l
  induction l with
  | nil => intro seen x hx; simp [orderSeq] at hx
  | cons b bs ih =>
    intro seen x hx
    simp only [orderSeq, List.mem_append] at hx
    rcases hx with hx | hx
    · exact ⟨b, List.mem_cons_self b bs, hv b seen x hx⟩
    · obtain ⟨b', hb', hx'⟩ := ih _ x hx
      exact ⟨b', List.mem_cons_of_mem _ hb', hx'⟩

theorem orderVisit_anc (m : Model) : ∀ fuel c seen x,
    x ∈ (orderVisit m fuel c seen).1 → x = c ∨ Anc m x c := by
  intro fuel
  induction fuel with
  | zero => intro c seen x hx; simp [orderVisit] at hx
  | succ f ih =>
    intro c seen x hx
    rw [orderVisit_succ] at hx
    by_cases h : c ∈ seen
    · simp [h] at hx
    · simp only [h, if_false, List.mem_append, List.mem_singleton] at hx
      rcases hx with hx | rfl
      · obtain ⟨b, hb, hx'⟩ := orderSeq_anc_of_visit m f ih (bases m c) seen x hx
        right
        rcases hx' with rfl | ha
        · exact Anc.base hb
        · exact Anc.step ha hb
      · left; rfl

theorem orderSeq_anc (m : Model) (fuel : Nat) :
    ∀ l seen x, x ∈ (orderSeq m fuel l seen).1 → ∃ b ∈ l, x = b ∨ Anc m x b :=
  orderSeq_anc_of_visit m fuel (orderVisit_anc m fuel)

theorem orderSeq_nodup_of_visit (m : Model) (fuel : Nat)
    (hv : ∀ c seen, (orderVisit m fuel c seen).1.Nodup) :
    ∀ l seen, (orderSeq m fuel l seen).1.Nodup := by
  intro l
  induction l with
  | nil => intro seen; simp [orderSeq]
  | cons b bs ih =>
    intro seen
    simp only [orderSeq]
    rw [List.nodup_append]
    refine ⟨hv b seen, ih _, ?_⟩
    intro x hx1 hx2
    have h2 := orderSeq_disj m fuel bs _ x hx2
    rw [orderVisit_seen] at h2
    exact h2 (List.mem_append.mpr (Or.inl (List.mem_reverse.mpr hx1)))

theorem orderVisit_nodup (m : Model) (hacyc : ∀ i, ¬ Anc m i i) :
    ∀ fuel c seen, (orderVisit m fuel c seen).1.Nodup := by
  intro fuel
  induction fuel with
  | zero => intro c seen; simp [orderVisit]
  | succ f ih =>
    intro c seen
    rw [orderVisit_succ]
    by_cases h : c ∈ seen
    · simp [h]
    · simp only [h, if_false]
      rw [List.nodup_append]
      refine ⟨orderSeq_nodup_of_visit m f ih (bases m c) seen, by simp, ?_⟩
      intro x hx hxc
      have hxc' : x = c := by simpa using hxc
      obtain ⟨b, hb, hcase⟩ := orderSeq_anc m f (bases m c) seen x hx
      rcases hcase with rfl | ha
      · exact hacyc c (Anc.base (hxc' ▸ hb))
      · exact hacyc c (Anc.step (hxc' ▸ ha) hb)

theorem orderSeq_nodup (m : Model) (hacyc : ∀ i, ¬ Anc m i i) (fuel : Nat)
    (l seen : List Nat) : (orderSeq m fuel l seen).1.Nodup :=
  orderSeq_nodup_of_visit m fuel (orderVisit_nodup m hacyc fuel) l seen

theorem orderVisit_self_mem (m : Model) (fuel : Nat) (c : Nat) (seen : List Nat)
    (hf : 1 ≤ fuel) : c ∈ (orderVisit m fuel c seen).2 := by
  cases fuel with
  | zero => cases hf
  | succ f =>
    rw [orderVisit_succ]
    by_cases h : c ∈ seen
    · simp [h]
    · simp [h]

theorem orderSeq_seen_mono (m : Model) (fuel : Nat) (l seen : List Nat) :
    seen ⊆ (orderSeq m fuel l seen).2 := by
  rw [orderSeq_seen]
  intro x hx
  exact List.mem_append.mpr (Or.inr hx)

theorem orderSeq_mem (m : Model) (fuel : Nat) (hf : 1 ≤ fuel) :
    ∀ l seen b, b ∈ l → b ∈ (orderSeq m fuel l seen).2 := by
  intro l
  induction l with
  | nil => intro seen b hb; cases hb
  | cons b0 bs ih =>
    intro seen b hb
    rcases List.mem_cons.mp hb with rfl | hb
    · have h1 := orderVisit_self_mem m fuel b seen hf
      simp only [orderSeq]
      exact orderSeq_seen_mono m fuel bs _ h1
    · simp only [orderSeq]
      exact ih _ b hb

theorem mem_take_idx (b : Nat) (l : List Nat) (n : Nat) (h : b ∈ l.take n) :
    ∃ i, i < n ∧ l[i]? = some b := by
  obtain ⟨i, hi⟩ := List.mem_iff_getElem?.mp h
  rw [List.getElem?_take] at hi
  by_cases hin : i < n
  · rw [if_pos hin] at hi
    exact ⟨i, hin, hi⟩
  · rw [if_neg hin] at hi
    cases hi

theorem orderSeq_topo_of_visit (m : Model) (fuel : Nat) (ht : Nat → Nat)
    (hv : ∀ c seen, ht c < fuel → ∀ n x, ((orderVisit m fuel c seen).1)[n]? = some x →
      ∀ b ∈ bases m x, b ∈ (orderVisit m fuel c seen).1.take n ∨ b ∈ seen) :
    ∀ l seen, (∀ c ∈ l, ht c < fuel) →
      ∀ n x, ((orderSeq m fuel l seen).1)[n]? = some x →
      ∀ b ∈ bases m x, b ∈ (orderSeq m fuel l seen).1.take n ∨ b ∈ seen := by
  intro l
  induction l with
  | nil => intro seen _ n x hx; simp [orderSeq] at hx
  | cons c0 cs ih =>
    intro seen hl n x hx b hb
    simp only [orderSeq] at hx ⊢
    rw [List.getElem?_append] at hx
    by_cases hn : n < (orderVisit m fuel c0 seen).1.length
    · rw [if_pos hn] at hx
      have hres := hv c0 seen (hl c0 (List.mem_cons_self c0 cs)) n x hx b hb
      rcases hres with h1 | h1
      · left
        rw [List.take_append_eq_append_take]
        exact List.mem_append.mpr (Or.inl h1)
      · right; exact h1
    · rw [if_neg hn] at hx
      have hrec := ih _ (fun c hc => hl c (List.mem_cons_of_mem _ hc)) _ x hx b hb
      rcases hrec with h1 | h1
      · left
        rw [List.take_append_eq_append_take]
        exact List.mem_append.mpr (Or.inr h1)
      · rw [orderVisit_seen] at h1
        rcases List.mem_append.mp h1 with h2 | h2
        · left
          rw [List.take_append_eq_append_take]
          apply List.mem_append.mpr
          left
          rw [List.take_of_length_le (Nat.le_of_not_lt hn)]
          exact List.mem_reverse.mp h2
        · right; exact h2

theorem orderVisit_topo (m : Model) (ht : Nat → Nat)
    (hht : ∀ i, ∀ j ∈ bases m i, ht j < ht i) :
    ∀ fuel c seen, ht c < fuel →
      ∀ n x, ((orderVisit m fuel c seen).1)[n]? = some x →
      ∀ b ∈ bases m x, b ∈ (orderVisit m fuel c seen).1.take n ∨ b ∈ seen := by
  intro fuel
  induction fuel with
  | zero => intro c seen hc; exact absurd hc (Nat.not_lt_zero _)
  | succ f ih =>
    intro c seen hc n x hx b hb
    rw [orderVisit_succ] at hx ⊢
    by_cases hcs : c ∈ seen
    · simp [hcs] at hx
    · simp only [hcs, if_false] at hx ⊢
      have hfb : ∀ b' ∈ bases m c, ht b' < f := by
        intro b' hb'
        have h1 := hht c b' hb'
        omega
      rw [List.getElem?_append] at hx
      by_cases hn : n < (orderSeq m f (bases m c) seen).1.length
      · rw [if_pos hn] at hx
        have hres := orderSeq_topo_of_visit m f ht ih (bases m c) seen hfb n x hx b hb
        rcases hres with h1 | h1
        · left
          rw [List.take_append_eq_append_take]
          exact List.mem_append.mpr (Or.inl h1)
        · right; exact h1
      · rw [if_neg hn] at hx
        have hd0 : n - (orderSeq m f (bases m c) seen).1.length = 0 ∧ x = c := by
          cases hd : n - (orderSeq m f (bases m c) seen).1.length with
          | zero =>
            rw [hd] at hx
            exact ⟨rfl, by simpa using hx.symm⟩
          | succ k =>
            rw [hd] at hx
            simp at hx
        have hxc : x = c := hd0.2
        have hbc : b ∈ bases m c := hxc ▸ hb
        have hf1 : 1 ≤ f := by
          have h1 := hfb b hbc
          omega
        have hmem := orderSeq_mem m f hf1 (bases m c) seen b hbc
        rw [orderSeq_seen] at hmem
        have hnlen : n = (orderSeq m f (bases m c) seen).1.length := by
          have h1 := hd0.1
          omega
        rcases List.mem_append.mp hmem with h2 | h2
        · left
          rw [List.take_append_eq_append_take, hnlen]
          apply List.mem_append.mpr
          left
          rw [List.take_of_length_le (Nat.le_refl _)]
          exact List.mem_reverse.mp h2
        · right; exact h2

theorem orderSeq_topo (m : Model) (fuel : Nat) (ht : Nat → Nat)
    (hht : ∀ i, ∀ j ∈ bases m i, ht j < ht i) (l seen : List Nat)
    (hl : ∀ c ∈ l, ht c < fuel) :
    ∀ n x, ((orderSeq m fuel l seen).1)[n]? = some x →
      ∀ b ∈ bases m x, b ∈ (orderSeq m fuel l seen).1.take n ∨ b ∈ seen :=
  orderSeq_topo_of_visit m fuel ht (orderVisit_topo m ht hht fuel) l seen hl

theorem topo_anc_before (T : List Nat) (m : Model)
    (htopo : ∀ (n x : Nat), T[n]? = some x → ∀ b ∈ bases m x, b ∈ T.take n) :
    ∀ a b, Anc m a b → ∀ (n : Nat), T[n]? = some b →
      ∃ i, i < n ∧ T[i]? = some a := by
  intro a b h
  induction h with
  | base hmem =>
    intro n hn
    exact mem_take_idx _ T n (htopo n _ hn _ hmem)
  | step _ hmem ih =>
    intro n hn
    have hj := htopo n _ hn _ hmem
    obtain ⟨i1, hi1, hji⟩ := mem_take_idx _ T n hj
    obtain ⟨i0, hi0, hai⟩ := ih i1 hji
    exact ⟨i0, Nat.lt_trans hi0 hi1, hai⟩

theorem bases_mem_classIds (m : Model) (i j : Nat) (h : j ∈ bases m i) :
    j ∈ classIds m := by
  unfold bases at h
  cases hl : lookupClass m i with
  | none => rw [hl] at h; cases h
  | some c =>
    rw [hl] at h
    unfold basesOfClass at h
    have hs := List.of_mem_filter h
    unfold lookupClass at hs
    cases hf : m.classes.find? (fun ic => ic.1 == j) with
    | none => rw [hf] at hs; cases hs
    | some ic =>
      have hmem := List.mem_of_find?_eq_some hf
      have hpx := List.find?_some hf
      have hij : ic.1 = j := by simpa using hpx
      unfold classIds
      exact hij ▸ List.mem_map_of_mem _ hmem

theorem exists_height (m : Model) (hacyc : ∀ i, ¬ Anc m i i) :
    ∃ ht : Nat → Nat, (∀ i, ∀ j ∈ bases m i, ht j < ht i) ∧
      ∀ i, ht i ≤ m.classes.length := by
  classical
  refine ⟨fun i => (((classIds m).toFinset).filter (fun j => Anc m j i)).card, ?_, ?_⟩
  · intro i j hj
    apply Finset.card_lt_card
    have hsub : ((classIds m).toFinset).filter (fun k => Anc m k j)
        ⊆ ((classIds m).toFinset).filter (fun k => Anc m k i) := by
      intro x hx
      rw [Finset.mem_filter] at hx ⊢
      exact ⟨hx.1, Anc.step hx.2 hj⟩
    rw [Finset.ssubset_iff_of_subset hsub]
    refine ⟨j, ?_, ?_⟩
    · rw [Finset.mem_filter]
      exact ⟨List.mem_toFinset.mpr (bases_mem_classIds m i j hj), Anc.base hj⟩
    · intro hmem
      rw [Finset.mem_filter] at hmem
      exact hacyc j hmem.2
  · intro i
    calc (((classIds m).toFinset).filter (fun j => Anc m j i)).card
        ≤ ((classIds m).toFinset).card := Finset.card_filter_le _ _
      _ ≤ (classIds m).length := List.toFinset_card_le _
      _ = m.classes.length := by
          unfold classIds
          rw [List.length_map]

theorem no_anc_of_nil_bases (m : Model) (b : Nat) (h : bases m b = []) (a : Nat) :
    ¬ Anc m a b := by
  intro h2
  cases h2 with
  | base hmem => rw [h] at hmem; cases hmem
  | step _ hmem => rw [h] at hmem; cases hmem

theorem bases_nil_of_all (m : Model)
    (h : ∀ ic ∈ m.classes, ic.2.generalization = []) : ∀ i, bases m i = [] := by
  intro i
  unfold bases
  cases hl : lookupClass m i with
  | none => rfl
  | some c =>
    unfold lookupClass at hl
    cases hf : m.classes.find? (fun ic => ic.1 == i) with
    | none => rw [hf] at hl; cases hl
    | some ic =>
      rw [hf] at hl
      have hmem := List.mem_of_find?_eq_some hf
      have hc : ic.2 = c := by simpa using hl
      show basesOfClass m c = []
      unfold basesOfClass
      rw [← hc, h ic hmem]
      rfl

/-- C1: on every model whose generalization graph is acyclic,
`order_classes` produces a sequence that contains each input class
exactly once, and whenever class `a` is a direct or transitive base of
class `b` (both in the input), `a` appears at a strictly smaller index
of the sequence than `b` — hence `a`'s declaration block is emitted
strictly before `b`'s. -/
theorem C1_order_exactly_once_and_topological (m : Model) (inputs : List Nat)
    (hacyc : ∀ i, ¬ Anc m i i) :
    (∀ c ∈ inputs, (order_classes m (modelFuel m) inputs).count c = 1) ∧
    (∀ a b, a ∈ inputs → b ∈ inputs → Anc m a b →
      ∃ (i j : Nat), i < j ∧ (order_classes m (modelFuel m) inputs)[i]? = some a ∧
        (order_classes m (modelFuel m) inputs)[j]? = some b) := by
  obtain ⟨ht, hht, hbound⟩ := exists_height m hacyc
  rw [order_classes_eq_seq]
  have hfuel : (1 : Nat) ≤ modelFuel m := Nat.le_add_left 1 m.classes.length
  have hmemT : ∀ c ∈ inputs, c ∈ (orderSeq m (modelFuel m) inputs []).1 := by
    intro c hc
    have h1 := orderSeq_mem m (modelFuel m) hfuel inputs [] c hc
    rw [orderSeq_seen] at h1
    rw [List.append_nil] at h1
    exact List.mem_reverse.mp h1
  have hnodup : (orderSeq m (modelFuel m) inputs []).1.Nodup :=
    orderSeq_nodup m hacyc (modelFuel m) inputs []
  have htopo : ∀ (n x : Nat), ((orderSeq m (modelFuel m) inputs []).1)[n]? = some x →
      ∀ b ∈ bases m x, b ∈ (orderSeq m (modelFuel m) inputs []).1.take n := by
    intro n x hx b hb
    have hfb : ∀ c ∈ inputs, ht c < modelFuel m := by
      intro c _
      have h1 := hbound c
      unfold modelFuel
      omega
    have hres := orderSeq_topo m (modelFuel m) ht hht inputs [] hfb n x hx b hb
    rcases hres with h1 | h1
    · exact h1
    · cases h1
  constructor
  · intro c hc
    exact List.count_eq_one_of_mem hnodup (hmemT c hc)
  · intro a b _ hb hanc
    obtain ⟨n, hn⟩ := List.mem_iff_getElem?.mp (hmemT b hb)
    obtain ⟨i, hi, ha⟩ := topo_anc_before _ m htopo a b hanc n hn
    exact ⟨i, n, hi, ha, hn⟩

/-- C1 (witness): the ordering theorem applied to a concrete acyclic
model. -/
theorem C1_witness :
    (order_classes mW1 (modelFuel mW1) [0, 1]).count 0 = 1 ∧
      (order_classes mW1 (modelFuel mW1) [0, 1]).count 1 = 1 := by
  have hacyc : ∀ i, ¬ Anc mW1 i i := fun i =>
    no_anc_of_nil_bases mW1 i (bases_nil_of_all mW1 (by decide) i) i
  exact ⟨(C1_order_exactly_once_and_topological mW1 [0, 1] hacyc).1 0 (by decide),
    (C1_order_exactly_once_and_topological mW1 [0, 1] hacyc).1 1 (by decide)⟩

theorem orderSeq_all_seen (m : Model) (fuel : Nat) :
    ∀ l seen, (∀ b ∈ l, b ∈ seen) → orderSeq m fuel l seen = ([], seen) := by
  intro l
  induction l with
  | nil => intro seen _; rfl
  | cons b bs ih =>
    intro seen h
    have hb : b ∈ seen := h b (List.mem_cons_self b bs)
    have hv : orderVisit m fuel b seen = ([], seen) := by
      cases fuel with
      | zero => rfl
      | succ f =>
        rw [orderVisit_succ, if_pos hb]
    simp only [orderSeq, hv]
    rw [ih seen (fun b' hb' => h b' (List.mem_cons_of_mem _ hb'))]
    rfl

theorem orderSeq_topoOK (m : Model) (f : Nat) :
    ∀ l seen, topoOK m seen l = true →
      orderSeq m (f + 1) l seen = (l, l.reverse ++ seen) := by
  intro l
  induction l with
  | nil => intro seen _; simp [orderSeq]
  | cons c cs ih =>
    intro seen h
    simp only [topoOK, Bool.and_eq_true, Bool.not_eq_true'] at h
    obtain ⟨⟨hc, hbases⟩, hrest⟩ := h
    have hcs : c ∉ seen := by
      intro hmem
      rw [(contains_iff seen c).mpr hmem] at hc
      cases hc
    have hall : ∀ b ∈ bases m c, b ∈ seen := fun b hb =>
      (contains_iff seen b).mp (List.all_eq_true.mp hbases b hb)
    have hv : orderVisit m (f + 1) c seen = ([c], c :: seen) := by
      rw [orderVisit_succ, if_neg hcs, orderSeq_all_seen m f (bases m c) seen hall]
      rfl
    simp only [orderSeq, hv]
    rw [ih (c :: seen) hrest]
    simp

/-- C6 (counterexample): the orderer is not stable for arbitrary
inputs: in `mX6`, C specializes B and A is unrelated to both; on input
[C, A, B] the orderer hoists B (a base of C) to the front, producing
[B, C, A], so the unconstrained pair A, B flips its relative order
(A before B in the input, B before A in the output). -/
theorem C6_counterexample :
    order_classes mX6 (modelFuel mX6) [2, 0, 1] = [1, 2, 0] ∧
      ¬ Anc mX6 0 1 ∧ ¬ Anc mX6 1 0 := by
  refine ⟨by decide, ?_, ?_⟩
  · exact no_anc_of_nil_bases mX6 1 (by decide) 0
  · exact no_anc_of_nil_bases mX6 0 (by decide) 1

/-- C6 (amended): the orderer preserves the input order exactly — and
hence the relative order of any two classes — whenever the input
sequence has no duplicates and already lists every direct base of each
class before that class (the decidable predicate `topoOK`). -/
theorem C6_stable_on_topo_inputs (m : Model) (l : List Nat)
    (h : topoOK m [] l = true) : order_classes m (modelFuel m) l = l := by
  rw [order_classes_eq_seq]
  show (orderSeq m (m.classes.length + 1) l []).1 = l
  rw [orderSeq_topoOK m m.classes.length l [] h]

/-- C6 (witness): the amended stability at a concrete topologically
ordered input. -/
theorem C6_witness : order_classes mW6 (modelFuel mW6) [0, 1] = [0, 1] :=
  C6_stable_on_topo_inputs mW6 [0, 1] (by decide)

theorem assocLoop_eq_filterMap (m : Model) (ov : Overrides) (cname : String) :
    ∀ l : List Property,
      assocLoop m ov cname l
        = (l.filterMap (assocMainEntry m ov cname),
           l.filterMap (assocRedefEntry m ov cname)) := by
  intro l
  induction l with
  | nil => rfl
  | cons a rest ih =>
    simp only [assocLoop, ih, List.filterMap_cons]
    by_cases h1 : has_override ov (cname ++ "." ++ a.name)
    · simp [assocMainEntry, assocRedefEntry, h1]
    · by_cases h2 : (!a.association || is_simple_type m (modelFuel m) a.typeId) = true
      · simp [assocMainEntry, assocRedefEntry, h1, h2]
      · by_cases h3 : pyTruthy (redefines a) = true
        · simp [assocMainEntry, assocRedefEntry, h1, h2, h3]
        · by_cases h4 : a.isDerived
          · simp [assocMainEntry, assocRedefEntry, h1, h2, h3, h4]
          · simp [assocMainEntry, assocRedefEntry, h1, h2, h3, h4]

/-- C8 (counterexample): within a class, association statements follow
the `ownedAttribute` declaration order, not name order: in `mX8` the
attribute b is declared before a, and its statement is emitted first
even though a's name sorts first. -/
theorem C8_counterexample :
    associations mX8 [] cX8
        = [Entry.line "C.b = association(\"b\", D)",
           Entry.line "C.a = association(\"a\", D)"] ∧
      strLtB "a" "b" = true := by
  exact ⟨rfl, by decide⟩

/-- C8 (amended): the association section lists, for each class in the
order produced by the orderer, first the override / derived-union /
plain association statements of its attributes in declaration order
(not name order), then the buffered redefinition statements, then the
subset registration statements. -/
theorem C8_association_section_structure (m : Model) (ov : Overrides) :
    (∀ c : Class, associations m ov c
        = c.ownedAttribute.filterMap (assocMainEntry m ov c.name)
          ++ (c.ownedAttribute.filterMap (assocRedefEntry m ov c.name)).map Entry.line
          ++ c.ownedAttribute.flatMap (subsetEntriesAttr m c)) ∧
      associationSection m ov
        = (order_classes m (modelFuel m) (generationSet m)).flatMap (fun cid =>
            match lookupClass m cid with
            | some c => entryLines (associations m ov c)
            | none => []) := by
  constructor
  · intro c
    show (assocLoop m ov c.name c.ownedAttribute).1
        ++ (assocLoop m ov c.name c.ownedAttribute).2.map Entry.line
        ++ c.ownedAttribute.flatMap (subsetEntriesAttr m c) = _
    rw [assocLoop_eq_filterMap]
  · rfl

/-- C9: for every non-simple-typed attribute whose stereotype slots are
exactly one "subsets" annotation, the subsets pass emits one entry per
comma-separated target: a "not defined" warning when name resolution
(own attributes first, then recursively the ancestors) fails, a "not a
derived union" warning when the resolved attribute is not derived, and
the `.add` registration statement otherwise; simple-typed attributes
undergo no subset processing at all. -/
theorem C9_subsets_processing (m : Model) (c : Class) (a : Property) :
    (is_simple_type m (modelFuel m) a.typeId = true → subsetEntriesAttr m c a = []) ∧
    (is_simple_type m (modelFuel m) a.typeId = false →
      subsetEntriesAttr m c a
          = a.slots.flatMap (fun slot =>
              if slot.definingFeature == "subsets" then
                (pySplit slot.value).map (subsetValueEntry m c (c.name ++ "." ++ a.name))
              else [])) ∧
    (∀ w : String,
      (attributeByName m (modelFuel m) c (pyStrip w) = none →
        subsetValueEntry m c (c.name ++ "." ++ a.name) w
          = Entry.warn (c.name ++ "." ++ a.name ++ " wants to subset " ++ pyStrip w
              ++ ", but it is not defined")) ∧
      (∀ d, attributeByName m (modelFuel m) c (pyStrip w) = some d → d.isDerived = false →
        subsetValueEntry m c (c.name ++ "." ++ a.name) w
          = Entry.warn (c.name ++ "." ++ a.name ++ " wants to subset " ++ pyStrip w
              ++ ", but it is not a derived union")) ∧
      (∀ d, attributeByName m (modelFuel m) c (pyStrip w) = some d → d.isDerived = true →
        subsetValueEntry m c (c.name ++ "." ++ a.name) w
          = Entry.line (ownerName m d ++ "." ++ d.name ++ ".add("
              ++ c.name ++ "." ++ a.name ++ ")"))) := by
  refine ⟨?_, ?_, ?_⟩
  · intro hs
    simp [subsetEntriesAttr, hs]
  · intro hs
    simp [subsetEntriesAttr, hs]
  · intro w
    refine ⟨?_, ?_, ?_⟩
    · intro hnone
      simp [subsetValueEntry, hnone]
    · intro d hd hder
      simp [subsetValueEntry, hd, hder]
    · intro d hd hder
      simp [subsetValueEntry, hd, hder, String.append_assoc]

/-- C9 (witness): the subsets pass at a concrete model where attribute
x subsets the derived union u of its own class. -/
theorem C9_witness :
    subsetEntriesAttr mW9 cW9 xW9
        = xW9.slots.flatMap (fun slot =>
            if slot.definingFeature == "subsets" then
              (pySplit slot.value).map
                (subsetValueEntry mW9 cW9 (cW9.name ++ "." ++ xW9.name))
            else []) ∧
      subsetValueEntry mW9 cW9 (cW9.name ++ "." ++ xW9.name) "u"
        = Entry.line "C.u.add(C.x)" := by
  refine ⟨(C9_subsets_processing mW9 cW9 xW9).2.1 (by decide), ?_⟩
  have h2 := ((C9_subsets_processing mW9 cW9 xW9).2.2 "u").2.2 uW9 (by decide) (by decide)
  rw [h2]
  rfl

/-- C7 (counterexample): an association attribute whose type is a
simple-attribute class can still cause an association-section
statement: when an override entry exists for the attribute, the
override branch of `associations` fires before the simple-type
collapse, emitting the override text in the association section. -/
theorem C7_counterexample :
    is_simple_type mC7 (modelFuel mC7) xC7.typeId = true ∧
      associations mC7 ovX7 cC7 = [Entry.line "OVR"] := by
  exact ⟨by decide, rfl⟩

/-- C7 (amended): for every association attribute with no override
entry whose type resolves to a simple-attribute class (marked directly
or via an ancestor), the emitted declaration is the plain string-typed
scalar declaration, the main association loop emits no statement for
it, and it undergoes no subset processing — even if multi-valued. -/
theorem C7_simple_collapse (m : Model) (ov : Overrides) (cname : String) (a : Property)
    (hov : has_override ov (cname ++ "." ++ a.name) = false)
    (hassoc : a.association = true)
    (hsimple : is_simple_type m (modelFuel m) a.typeId = true) :
    variableAttrLines m ov cname a
        = Except.ok [Entry.line (a.name ++ ": _attribute[str] = _attribute(\""
            ++ a.name ++ "\", str)")] ∧
      (∀ rest, assocLoop m ov cname (a :: rest) = assocLoop m ov cname rest) ∧
      (∀ c : Class, subsetEntriesAttr m c a = []) := by
  refine ⟨?_, ?_, ?_⟩
  · simp [variableAttrLines, hov, hassoc, hsimple]
  · intro rest
    simp [assocLoop, hov, hassoc, hsimple]
  · intro c
    simp [subsetEntriesAttr, hsimple]

/-- C7 (witness): the collapse at the concrete simple-typed
multi-valued attribute of `mC7`, without an override. -/
theorem C7_witness :
    variableAttrLines mC7 [] "C" xC7
        = Except.ok [Entry.line "x: _attribute[str] = _attribute(\"x\", str)"] ∧
      assocLoop mC7 [] "C" [xC7] = assocLoop mC7 [] "C" [] ∧
      subsetEntriesAttr mC7 cC7 xC7 = [] := by
  have h := C7_simple_collapse mC7 [] "C" xC7 (by decide) (by decide) (by decide)
  refine ⟨?_, h.2.1 [], h.2.2 cC7⟩
  rw [h.1]
  rfl

theorem mem_insertByKey {α : Type} (key : α → String) (x y : α) (l : List α) :
    y ∈ insertByKey key x l ↔ y = x ∨ y ∈ l := by
  induction l with
  | nil => simp [insertByKey]
  | cons z zs ih =>
    simp only [insertByKey]
    by_cases h : strLtB (key z) (key x)
    · simp only [h, if_true, List.mem_cons, ih]
      tauto
    · simp only [Bool.not_eq_true] at h
      simp only [h, Bool.false_eq_true, if_false, List.mem_cons]

theorem mem_sortByKey {α : Type} (key : α → String) (x : α) (l : List α) :
    x ∈ sortByKey key l ↔ x ∈ l := by
  induction l with
  | nil => simp [sortByKey]
  | cons z zs ih =>
    simp [sortByKey, mem_insertByKey, ih]

/-- C2 (counterexample): at the attribute-declaration emission site the
generated line is not the override entry's literal text: it is the
attribute name, a colon, and the entry's type annotation.  Here the
entry's literal text is "REPLACED" but the emitted declaration line is
"x: int". -/
theorem C2_counterexample :
    variableAttrLines mX2 ovX2 "C" xX2 = Except.ok [Entry.line "x: int"] ∧
      get_override ovX2 "C.x" = "REPLACED" ∧ ("x: int" : String) ≠ "REPLACED" := by
  exact ⟨rfl, rfl, by decide⟩

/-- C2 (amended): for every qualified name present in the override
table, the override wins over the classification rules at each
emission site: the class declaration block, the operation section and
the association statement are the entry's literal text exactly, while
the attribute-declaration line is the attribute's name, ": ", and the
entry's type annotation (not the literal text). -/
theorem C2_override_precedence :
    (∀ (m : Model) (ov : Overrides) (cid : Nat) (c : Class) (e : OverrideEntry),
      lookupClass m cid = some c → lookupOverride ov c.name = some e →
      classBlock m ov cid = Except.ok [e.text, "", ""]) ∧
    (∀ (m : Model) (ov : Overrides) (cname : String) (a : Property) (e : OverrideEntry),
      lookupOverride ov (cname ++ "." ++ a.name) = some e →
      variableAttrLines m ov cname a
        = Except.ok [Entry.line (a.name ++ ": " ++ e.otype)]) ∧
    (∀ (ov : Overrides) (c : Class) (o : Operation) (e : OverrideEntry),
      o ∈ c.ownedOperation → lookupOverride ov (c.name ++ "." ++ o.name) = some e →
      e.text ∈ operations ov c) ∧
    (∀ (m : Model) (ov : Overrides) (cname : String) (a : Property) (e : OverrideEntry)
      (rest : List Property),
      lookupOverride ov (cname ++ "." ++ a.name) = some e →
      assocLoop m ov cname (a :: rest)
        = (Entry.line e.text :: (assocLoop m ov cname rest).1,
           (assocLoop m ov cname rest).2)) := by
  refine ⟨?_, ?_, ?_, ?_⟩
  · intro m ov cid c e hlc he
    simp [classBlock, hlc, has_override, get_override, he]
  · intro m ov cname a e he
    simp [variableAttrLines, has_override, get_type, he]
  · intro ov c o e ho he
    unfold operations
    apply List.mem_filterMap.mpr
    refine ⟨o, (mem_sortByKey _ o _).mpr ho, ?_⟩
    simp [has_override, get_override, he]
  · intro m ov cname a e rest he
    simp [assocLoop, has_override, get_override, he]

/-- C2 (witness): the override sites at a concrete model whose class,
attribute and operation are all overridden. -/
theorem C2_witness :
    classBlock mW2 ovW2 0 = Except.ok ["OVERRIDE CLASS C", "", ""] ∧
      variableAttrLines mW2 ovW2 "C" xW2 = Except.ok [Entry.line "x: int"] ∧
      "OVERRIDE F" ∈ operations ovW2 cW2 ∧
      assocLoop mW2 ovW2 "C" [xW2]
        = (Entry.line "OVERRIDE X" :: (assocLoop mW2 ovW2 "C" []).1,
           (assocLoop mW2 ovW2 "C" []).2) := by
  refine ⟨?_, ?_, ?_, ?_⟩
  · have h := C2_override_precedence.1 mW2 ovW2 0 cW2 ⟨"OVERRIDE CLASS C", "TC"⟩ rfl rfl
    rw [h]
  · have h := C2_override_precedence.2.1 mW2 ovW2 "C" xW2 ⟨"OVERRIDE X", "int"⟩ rfl
    rw [h]
    rfl
  · exact C2_override_precedence.2.2.1 ovW2 cW2 ⟨"f"⟩ ⟨"OVERRIDE F", "Callable[[], int]"⟩
      (by decide) rfl
  · exact C2_override_precedence.2.2.2 mW2 ovW2 "C" xW2 ⟨"OVERRIDE X", "int"⟩ [] rfl

theorem fullname_ne (s t : String) : s ++ "." ++ t ≠ s := by
  intro h
  have hlen := congrArg String.length h
  rw [String.length_append, String.length_append] at hlen
  have hdot : ("." : String).length = 1 := rfl
  rw [hdot] at hlen
  omega

theorem lookupOverride_cons_ne (k kh : String) (e : OverrideEntry) (ov : Overrides)
    (h : k ≠ kh) : lookupOverride ((kh, e) :: ov) k = lookupOverride ov k := by
  unfold lookupOverride
  rw [List.find?_cons_of_neg]
  simp
  exact fun hc => absurd hc.symm h

/-- C10: adding a class-level override entry for a class replaces only
that class's declaration block with the entry's literal text; the
operation section and the association statements for that class's
members are computed exactly as before, each consulting the registry
only at member-level keys (which a bare class name can never equal). -/
theorem C10_class_override_scope (m : Model) (ov : Overrides) (cid : Nat) (c : Class)
    (e : OverrideEntry) (hlc : lookupClass m cid = some c) :
    classBlock m ((c.name, e) :: ov) cid = Except.ok [e.text, "", ""] ∧
      operations ((c.name, e) :: ov) c = operations ov c ∧
      associations m ((c.name, e) :: ov) c = associations m ov c := by
  have hkey : ∀ nm : String,
      lookupOverride ((c.name, e) :: ov) (c.name ++ "." ++ nm)
        = lookupOverride ov (c.name ++ "." ++ nm) := fun nm =>
    lookupOverride_cons_ne _ _ _ _ (fullname_ne c.name nm)
  have hhas : ∀ nm : String,
      has_override ((c.name, e) :: ov) (c.name ++ "." ++ nm)
        = has_override ov (c.name ++ "." ++ nm) := by
    intro nm
    unfold has_override
    rw [hkey]
  have hget : ∀ nm : String,
      get_override ((c.name, e) :: ov) (c.name ++ "." ++ nm)
        = get_override ov (c.name ++ "." ++ nm) := by
    intro nm
    unfold get_override
    rw [hkey]
  refine ⟨?_, ?_, ?_⟩
  · simp [classBlock, hlc, has_override, get_override, lookupOverride]
  · unfold operations
    apply List.filterMap_congr
    intro o _
    dsimp only
    rw [hhas o.name, hget o.name]
  · have hloop : ∀ l, assocLoop m ((c.name, e) :: ov) c.name l = assocLoop m ov c.name l := by
      intro l
      induction l with
      | nil => rfl
      | cons a rest ih =>
        simp only [assocLoop, ih, hhas a.name, hget a.name]
    unfold associations
    rw [hloop]

/-- C10 (witness): the class-level override scope at a concrete model. -/
theorem C10_witness :
    classBlock mW10 [("C", ⟨"CLS", "T"⟩)] 0 = Except.ok ["CLS", "", ""] ∧
      operations [("C", ⟨"CLS", "T"⟩)] cW10 = operations [] cW10 ∧
      associations mW10 [("C", ⟨"CLS", "T"⟩)] cW10 = associations mW10 [] cW10 := by
  have h := C10_class_override_scope mW10 [] 0 cW10 ⟨"CLS", "T"⟩ rfl
  exact h

/-- C5 (witness): the amended behavior at concrete attributes: a quoted
string default, and a float-typed default aborting the classifier. -/
theorem C5_witness :
    default_value mW5 aW5 = Except.ok ", default=\"x\"" ∧
      variableAttrLines mW5 [] "A" aW5e
        = Except.error "Unknown default value type: A.x: float = 1.5" := by
  constructor
  · have h := ((C5_default_value mW5 [] "A" aW5).2 "x" rfl (by decide)).1 rfl
    rw [h]
    rfl
  · have h := (((C5_default_value mW5 [] "A" aW5e).2 "1.5" rfl (by decide)).2.2
      (by decide) (by decide)).2 (by decide) (by decide) (by decide) (by decide)
    rw [h]
    rfl

end Coder
